import Mathlib

/-!
A shallow embedding of `src/main/python/keyboard.py` from the vial-gui
repository: the low-level protocol client (`class Keyboard`) for a
vial-enabled keyboard.

Modelling conventions:
* Python byte strings are `List Nat` (one entry per byte).
* Python text strings are `List Char`.
* Python ints are `Int` (`Nat` where the source value is a byte count, size or
  list index).
* The transport primitive `usb_send(dev, req)` (external, from `util`) is an
  oracle `send : List Nat → List Nat` mapping a request frame to the
  fixed-length response frame; `MSG_LEN` (external constant) is a parameter
  `M : Nat`.
* `lzma.decompress` + `json.loads` of the accumulated definition payload,
  composed with the field accesses and the external KLE deserializer
  (`KleSerial().deserialize(payload["layouts"]["keymap"]).keys`), are modelled
  by an oracle `dp : List Nat → Option Payload`; `none` models a raised
  exception at `json.loads(lzma.decompress(payload))`.
* Python exceptions are `Except`; the error value carries the exception kind
  and the state of the `Keyboard` object at the moment the exception escapes
  (Python mutates the object in place), and - for the write path - the write
  requests already issued on the transport.
* `struct.pack`/`struct.unpack` are modelled by explicit byte functions; the
  range checks `pack` performs on its integer arguments are made explicit
  (`struct.error` when an argument does not fit the format character).
-/

/-- The Python exception kinds that can escape the functions of `keyboard.py`. -/
inductive PErr where
  | keyError
  | structError
  | valueError
  | indexError
  | decodeError
deriving Repr, DecidableEq

/-- One key record as produced by the external KLE deserializer: a list of
labels (each a text string), and the `row`/`col` attributes that
`Keyboard.reload_layout` assigns onto the record (absent/`None` before). -/
structure KeyRec where
  labels : List (List Char)
  row : Option Int
  col : Option Int
deriving Repr, DecidableEq

/-- The mutable state of a `Keyboard` object.  `dev` and `usb_send` are not
state in any claim-relevant sense and are passed as the `send` oracle instead.
`rowcol` is the insertion-ordered `OrderedDict` with unit values, modelled as
a duplicate-free list in insertion order; `layout` is a Python dict modelled
as an association list (first match wins, updates in place, inserts append). -/
structure Keyboard where
  rowcol : List (Int × Int)
  layout : List ((Int × Int × Int) × Int)
  rows : Int
  cols : Int
  layers : Int
  keys : List KeyRec
  vial_protocol : Int
  keyboard_id : Int
deriving Repr, DecidableEq

/-- `Keyboard.__init__`: empty coordinate set and keymap, zero geometry,
DeviceIdentity sentinel `(-1, -1)`. -/
def initKeyboard : Keyboard :=
  { rowcol := [], layout := [], rows := 0, cols := 0, layers := 0, keys := []
  , vial_protocol := -1, keyboard_id := -1 }

/-- Python dict lookup `d[k]` (as an `Option`; `none` is a `KeyError`). -/
def dictLookup (d : List ((Int × Int × Int) × Int)) (k : Int × Int × Int) : Option Int :=
  match d with
  | [] => none
  | (k', v) :: rest => if k' = k then some v else dictLookup rest k

/-- Python dict assignment `d[k] = v`: replace the value at an existing key in
place, append a fresh key at the end. -/
def dictInsert (d : List ((Int × Int × Int) × Int)) (k : Int × Int × Int) (v : Int) :
    List ((Int × Int × Int) × Int) :=
  match d with
  | [] => [(k, v)]
  | (k', v') :: rest => if k' = k then (k, v) :: rest else (k', v') :: dictInsert rest k v

/-- `OrderedDict` assignment `d[k] = True`: an existing key keeps its original
position, a fresh key is appended. -/
def odInsert (d : List (Int × Int)) (k : Int × Int) : List (Int × Int) :=
  if k ∈ d then d else d ++ [k]

/-- Little-endian value of a byte list. -/
def leNat (bs : List Nat) : Nat :=
  match bs with
  | [] => 0
  | b :: rest => b + 256 * leNat rest

/-- `struct.unpack("<IQ", data[0:12])`: little-endian 32-bit protocol version
and 64-bit keyboard id; `struct.error` (here `none`) when fewer than 12 bytes
are available. -/
def unpackIQ (data : List Nat) : Option (Int × Int) :=
  if 12 ≤ data.length then
    some ((leNat (data.take 4) : Int), (leNat ((data.drop 4).take 8) : Int))
  else none

/-- `struct.unpack("<I", data[0:4])[0]`: little-endian 32-bit size;
`struct.error` when fewer than 4 bytes are available. -/
def unpackI (data : List Nat) : Option Nat :=
  if 4 ≤ data.length then some (leNat (data.take 4)) else none

/-- `struct.unpack(">H", data[i:i+2])[0]`: big-endian 16-bit value;
`struct.error` when fewer than two bytes are available at offset `i`. -/
def be16at (data : List Nat) (i : Nat) : Option Int :=
  match data.get? i, data.get? (i + 1) with
  | some hi, some lo => some ((256 * hi + lo : Nat) : Int)
  | _, _ => none

/-- The four little-endian bytes of `n` (the `I` field of
`struct.pack("<BBI", ...)`; block indices stay below `2^32` because the
declared size itself is a 32-bit value and `MSG_LEN ≥ 1`). -/
def le32 (n : Nat) : List Nat :=
  [n % 256, n / 256 % 256, n / 65536 % 256, n / 16777216 % 256]

/-- `struct.pack("<BBI", 0xFE, 0x02, block)`: the definition-chunk request. -/
def chunkReq (block : Nat) : List Nat := 254 :: 2 :: le32 block

/-- Python `label.split(",")` for a text string. -/
def splitComma (s : List Char) : List (List Char) :=
  match s with
  | [] => [[]]
  | ch :: rest =>
    if ch = ',' then [] :: splitComma rest
    else
      match splitComma rest with
      | [] => [[ch]]
      | p :: ps => (ch :: p) :: ps

/-- The numeric value of a decimal digit character. -/
def digitVal (ch : Char) : Option Nat :=
  if '0' ≤ ch ∧ ch ≤ '9' then some (ch.toNat - '0'.toNat) else none

/-- Decimal accumulation over a digit string. -/
def parseNatAux (s : List Char) (acc : Nat) : Option Nat :=
  match s with
  | [] => some acc
  | ch :: rest =>
    match digitVal ch with
    | some d => parseNatAux rest (acc * 10 + d)
    | none => none

/-- Python `int(s)` on an optionally-signed decimal string (the label tokens
fed to it by `reload_layout`); `none` is a `ValueError`. -/
def pyInt (s : List Char) : Option Int :=
  match s with
  | [] => none
  | '-' :: rest =>
    match rest with
    | [] => none
    | _ :: _ => (parseNatAux rest 0).map (fun n : Nat => -(n : Int))
  | _ => (parseNatAux s 0).map (fun n : Nat => (n : Int))

/-- The coordinate-extraction step of `reload_layout` for one primary label:
`if key.labels[0] and "," in key.labels[0]: row, col = key.labels[0].split(",");
row, col = int(row), int(col)`.  `.ok none` means the guard failed and the key
is skipped; `.error` is the `ValueError` raised by the 2-tuple unpacking of
`split` or by `int`. -/
def labelCoord (s : List Char) : Except Unit (Option (Int × Int)) :=
  if s ≠ [] ∧ s.contains ',' = true then
    match splitComma s with
    | [a, b] =>
      match pyInt a, pyInt b with
      | some r, some c => .ok (some (r, c))
      | _, _ => .error ()
    | _ => .error ()
  else .ok none

/-- `true` iff `labelCoord` does not raise (used to state hypotheses
decidably). -/
def labelOk (s : List Char) : Bool :=
  match labelCoord s with
  | .ok _ => true
  | .error _ => false

/-- The coordinate extracted from a key record, if any. -/
def coordOf (k : KeyRec) : Option (Int × Int) :=
  match labelCoord (k.labels.getD 0 []) with
  | .ok o => o
  | .error _ => none

/-- The coordinates of a key list in deserializer output order. -/
def coordsOf (ks : List KeyRec) : List (Int × Int) := ks.filterMap coordOf

/-- Folding `odInsert` over a coordinate list. -/
def odInsertAll (d : List (Int × Int)) (cs : List (Int × Int)) : List (Int × Int) :=
  cs.foldl odInsert d

/-- The per-key loop at the end of `reload_layout` (lines 87-94): reset
`key.row`/`key.col`, parse the primary label, record the coordinate on the key
and in `rowcol`.  `done` are the keys already processed (`self.keys` is the
whole list; on a `ValueError` the failing key keeps `row = col = None` and the
remaining keys are untouched). -/
def processKeys (kb : Keyboard) (done : List KeyRec) (todo : List KeyRec) :
    Except (PErr × Keyboard) Keyboard :=
  match todo with
  | [] => .ok { kb with keys := done }
  | key :: rest =>
    let key0 : KeyRec := { key with row := none, col := none }
    match labelCoord (key0.labels.getD 0 []) with
    | .error _ => .error (.valueError, { kb with keys := done ++ key0 :: rest })
    | .ok none => processKeys kb (done ++ [key0]) rest
    | .ok (some (r, c)) =>
      let key1 : KeyRec := { key0 with row := some r, col := some c }
      processKeys { kb with rowcol := odInsert kb.rowcol (r, c) } (done ++ [key1]) rest

/-- The chunked-fetch loop of `reload_layout` (lines 67-75), with explicit
fuel for structural recursion.  The loop runs while `sz > 0`, decrementing
`sz` by `M` per iteration, so with `M ≥ 1` it performs at most `sz`
iterations and fuel `sz` always suffices; `none` (fuel exhausted) can only
occur when `M = 0`, where the Python loop would not terminate.  Returns the
accumulated payload and the list of requested block indices in order. -/
def fetchLoop (send : List Nat → List Nat) (M : Nat) :
    Nat → Nat → Nat → Option (List Nat × List Nat)
  | _, 0, _ => some ([], [])
  | 0, _ + 1, _ => none
  | fuel + 1, s + 1, block =>
    let data := send (chunkReq block)
    let data := if s + 1 < M then data.take (s + 1) else data
    match fetchLoop send M fuel (s + 1 - M) (block + 1) with
    | none => none
    | some (payload, blocks) => some (data ++ payload, block :: blocks)

/-- The chunked payload fetch: total declared size `sz`, starting block index
`block` (0 at the call site). -/
def fetchChunks (send : List Nat → List Nat) (M sz block : Nat) : List Nat × List Nat :=
  (fetchLoop send M sz sz block).getD ([], [])

/-- `Keyboard.reload_layers`: `self.layers = usb_send(dev, pack("B", 0x11))[1]`
(`IndexError` when the response has fewer than two bytes). -/
def reload_layers (send : List Nat → List Nat) (kb : Keyboard) :
    Except (PErr × Keyboard) Keyboard :=
  match (send [17]).get? 1 with
  | none => .error (.indexError, kb)
  | some b => .ok { kb with layers := (b : Int) }

/-- `struct.pack("BBBB", 0x04, layer, row, col)`: the get-keycode request;
`struct.error` (`none`) when a field does not fit in one byte. -/
def getKeycodeReq (layer : Int) (rc : Int × Int) : Option (List Nat) :=
  if 0 ≤ layer ∧ layer < 256 ∧ 0 ≤ rc.1 ∧ rc.1 < 256 ∧ 0 ≤ rc.2 ∧ rc.2 < 256 then
    some [4, layer.toNat, rc.1.toNat, rc.2.toNat]
  else none

/-- The inner loop of `reload_keymap` for one layer: fetch and store the
keycode of every coordinate of `rcs` (in `rowcol` order). -/
def reload_keymap_row (send : List Nat → List Nat) (kb : Keyboard) (layer : Int)
    (rcs : List (Int × Int)) : Except (PErr × Keyboard) Keyboard :=
  match rcs with
  | [] => .ok kb
  | rc :: rest =>
    match getKeycodeReq layer rc with
    | none => .error (.structError, kb)
    | some req =>
      match be16at (send req) 4 with
      | none => .error (.structError, kb)
      | some keycode =>
        reload_keymap_row send
          { kb with layout := dictInsert kb.layout (layer, rc.1, rc.2) keycode } layer rest

/-- Python `range(n)` over `Int` (empty for `n ≤ 0`). -/
def intRange (n : Int) : List Int := (List.range n.toNat).map (fun i : Nat => (i : Int))

/-- The outer loop of `reload_keymap` over `range(self.layers)`. -/
def reload_keymap_layers (send : List Nat → List Nat) (kb : Keyboard) (ls : List Int) :
    Except (PErr × Keyboard) Keyboard :=
  match ls with
  | [] => .ok kb
  | l :: rest =>
    match reload_keymap_row send kb l kb.rowcol with
    | .error e => .error e
    | .ok kb1 => reload_keymap_layers send kb1 rest

/-- `Keyboard.reload_keymap`. -/
def reload_keymap (send : List Nat → List Nat) (kb : Keyboard) :
    Except (PErr × Keyboard) Keyboard :=
  reload_keymap_layers send kb (intRange kb.layers)

/-- A decompressed and parsed layout document, reduced to the fields
`reload_layout` reads: `payload["matrix"]["rows"]`, `payload["matrix"]["cols"]`
and the key records the external deserializer produces from
`payload["layouts"]["keymap"]`. -/
structure Payload where
  matrix_rows : Int
  matrix_cols : Int
  keymap_keys : List KeyRec
deriving Repr, DecidableEq

/-- The post-processing shared by both discovery paths (lines 79-94): store
the matrix geometry, then process the deserialized key records. -/
def reload_layout_post (kb : Keyboard) (payload : Payload) :
    Except (PErr × Keyboard) Keyboard :=
  processKeys { kb with rows := payload.matrix_rows, cols := payload.matrix_cols }
    [] payload.keymap_keys

/-- `Keyboard.reload_layout`: sideload path uses the supplied document
directly; the live path does the identity exchange (`pack("BB", 0xFE, 0x00)`,
decoded `<IQ`), the size exchange (`pack("BB", 0xFE, 0x01)`, decoded `<I`),
the chunked payload fetch, and decompression + parsing (`dp`). -/
def reload_layout (send : List Nat → List Nat) (dp : List Nat → Option Payload) (M : Nat)
    (kb : Keyboard) (sideload : Option Payload) : Except (PErr × Keyboard) Keyboard :=
  match sideload with
  | some payload => reload_layout_post kb payload
  | none =>
    match unpackIQ (send [254, 0]) with
    | none => .error (.structError, kb)
    | some (vp, kid) =>
      let kb := { kb with vial_protocol := vp, keyboard_id := kid }
      match unpackI (send [254, 1]) with
      | none => .error (.structError, kb)
      | some sz =>
        match dp (fetchChunks send M sz 0).1 with
        | none => .error (.decodeError, kb)
        | some payload => reload_layout_post kb payload

/-- `Keyboard.reload`: reset `rowcol` and `layout`, then
`reload_layout; reload_layers; reload_keymap`. -/
def reload (send : List Nat → List Nat) (dp : List Nat → Option Payload) (M : Nat)
    (kb : Keyboard) (sideload : Option Payload) : Except (PErr × Keyboard) Keyboard :=
  let kb0 := { kb with rowcol := [], layout := [] }
  match reload_layout send dp M kb0 sideload with
  | .error e => .error e
  | .ok kb1 =>
    match reload_layers send kb1 with
    | .error e => .error e
    | .ok kb2 => reload_keymap send kb2

/-- One write request on the transport: the fields of
`struct.pack(">BBBBH", 0x05, layer, row, col, code)`.  (The response to a set
request is ignored by the source, so only the request is recorded.) -/
structure WriteReq where
  l : Int
  r : Int
  c : Int
  code : Int
deriving Repr, DecidableEq

/-- The range contract of `struct.pack(">BBBBH", 0x05, l, r, c, code)`:
`B` fields must fit one unsigned byte and the `H` field sixteen unsigned
bits, else `struct.error`. -/
def canEncodeSetKey (l r c code : Int) : Bool :=
  decide (0 ≤ l ∧ l < 256) && decide (0 ≤ r ∧ r < 256) && decide (0 ≤ c ∧ c < 256) &&
    decide (0 ≤ code ∧ code < 65536)

/-- `Keyboard.set_key`: look up the cached value (`KeyError` when absent); when
it differs from `code`, pack and send the write request (`struct.error` when a
field is out of range) and update the cache; otherwise do nothing.  The
returned list holds the write requests issued (empty or one). -/
def set_key (kb : Keyboard) (l r c code : Int) :
    Except (PErr × Keyboard × List WriteReq) (Keyboard × List WriteReq) :=
  match dictLookup kb.layout (l, r, c) with
  | none => .error (.keyError, kb, [])
  | some cur =>
    if cur ≠ code then
      if canEncodeSetKey l r c code then
        .ok ({ kb with layout := dictInsert kb.layout (l, r, c) code }, [⟨l, r, c, code⟩])
      else .error (.structError, kb, [])
    else .ok (kb, [])

/-- The save document: `{"version": 0, "layout": [[[...]]]}`.  The JSON
encoding to bytes and back (`json.dumps`/`json.loads`) is external and
faithful on these values, so save/restore are modelled on the structured
document. -/
structure SavedLayout where
  version : Int
  layout : List (List (List Int))
deriving Repr, DecidableEq

/-- `Keyboard.save_layout`: a dense `[layer][row][col]` array with the cached
keycode where present and the sentinel `-1` where absent. -/
def save_layout (kb : Keyboard) : SavedLayout :=
  { version := 0
  , layout :=
      (intRange kb.layers).map (fun l =>
        (intRange kb.rows).map (fun r =>
          (intRange kb.cols).map (fun c =>
            (dictLookup kb.layout (l, r, c)).getD (-1)))) }

/-- The innermost loop of `restore_layout`: `for c, col in enumerate(row):
if (l, r, c) in self.layout: self.set_key(l, r, c, col)`, with `c` counting
from the given start index.  Accumulates the issued write requests. -/
def restoreRow (kb : Keyboard) (l r : Int) (vals : List Int) (c : Int) :
    Except (PErr × Keyboard × List WriteReq) (Keyboard × List WriteReq) :=
  match vals with
  | [] => .ok (kb, [])
  | v :: rest =>
    if (dictLookup kb.layout (l, r, c)).isSome then
      match set_key kb l r c v with
      | .error e => .error e
      | .ok (kb1, ws1) =>
        match restoreRow kb1 l r rest (c + 1) with
        | .error (e, kbE, wsE) => .error (e, kbE, ws1 ++ wsE)
        | .ok (kb2, ws2) => .ok (kb2, ws1 ++ ws2)
    else restoreRow kb l r rest (c + 1)

/-- The middle loop of `restore_layout`: `for r, row in enumerate(layer)`. -/
def restoreLayer (kb : Keyboard) (l : Int) (rows : List (List Int)) (r : Int) :
    Except (PErr × Keyboard × List WriteReq) (Keyboard × List WriteReq) :=
  match rows with
  | [] => .ok (kb, [])
  | vals :: rest =>
    match restoreRow kb l r vals 0 with
    | .error e => .error e
    | .ok (kb1, ws1) =>
      match restoreLayer kb1 l rest (r + 1) with
      | .error (e, kbE, wsE) => .error (e, kbE, ws1 ++ wsE)
      | .ok (kb2, ws2) => .ok (kb2, ws1 ++ ws2)

/-- The outer loop of `restore_layout`: `for l, layer in enumerate(data["layout"])`. -/
def restoreLayers (kb : Keyboard) (ls : List (List (List Int))) (l : Int) :
    Except (PErr × Keyboard × List WriteReq) (Keyboard × List WriteReq) :=
  match ls with
  | [] => .ok (kb, [])
  | layer :: rest =>
    match restoreLayer kb l layer 0 with
    | .error e => .error e
    | .ok (kb1, ws1) =>
      match restoreLayers kb1 rest (l + 1) with
      | .error (e, kbE, wsE) => .error (e, kbE, ws1 ++ wsE)
      | .ok (kb2, ws2) => .ok (kb2, ws1 ++ ws2)

/-- `Keyboard.restore_layout` on the parsed save document. -/
def restore_layout (kb : Keyboard) (d : SavedLayout) :
    Except (PErr × Keyboard × List WriteReq) (Keyboard × List WriteReq) :=
  restoreLayers kb d.layout 0

/-- The value stored at dense position `[i][j][k]` of a save document, if that
position exists. -/
def entryAt (d : SavedLayout) (i j k : Nat) : Option Int :=
  d.layout[i]?.bind (fun layer => layer[j]?.bind (fun row => row[k]?))

/-- The `ok` component of an `Except`, for stating concrete evaluations. -/
def exOk {ε α : Type} (x : Except ε α) : Option α :=
  match x with
  | .ok a => some a
  | .error _ => none

/-- The `error` component of an `Except`, for stating concrete evaluations. -/
def exErr {ε α : Type} (x : Except ε α) : Option ε :=
  match x with
  | .ok _ => none
  | .error e => some e

/-- Both possible outcomes of an operation leave the DeviceIdentity fields
(`vial_protocol`, `keyboard_id`) of the session equal to those of `kb`. -/
def idPres (kb : Keyboard) (x : Except (PErr × Keyboard) Keyboard) : Prop :=
  (∀ kb', x = .ok kb' → kb'.vial_protocol = kb.vial_protocol ∧
    kb'.keyboard_id = kb.keyboard_id) ∧
  (∀ e kbE, x = .error (e, kbE) → kbE.vial_protocol = kb.vial_protocol ∧
    kbE.keyboard_id = kb.keyboard_id)


/-! ### Concrete fixtures used by witnesses and counterexamples -/

/-- Transport double for the C1 scenario: the size exchange answers a declared
size of 1 byte, every other request gets 32 zero bytes. -/
def c1Send : List Nat → List Nat :=
  fun req => if req = [254, 1] then [1, 0, 0, 0] ++ List.replicate 28 0 else List.replicate 32 0

/-- A session that already holds a discovered coordinate and keymap entry. -/
def c1Kb : Keyboard :=
  { rowcol := [((0 : Int), (0 : Int))], layout := [(((0 : Int), (0 : Int), (0 : Int)), 5)]
  , rows := 1, cols := 1, layers := 0, keys := [], vial_protocol := -1, keyboard_id := -1 }

/-- The state `reload` leaves behind when the C1 discovery fails at parsing:
coordinate set and keymap cleared, geometry untouched, identity overwritten. -/
def c1KbErr : Keyboard :=
  { c1Kb with rowcol := [], layout := [], vial_protocol := 0, keyboard_id := 0 }

/-- A 1x1x1 session with one cached keycode. -/
def c2Kb : Keyboard :=
  { rowcol := [((0 : Int), (0 : Int))], layout := [(((0 : Int), (0 : Int), (0 : Int)), 10)]
  , rows := 1, cols := 1, layers := 1, keys := [], vial_protocol := -1, keyboard_id := -1 }

/-- Transport double for the C4 scenario: one layer, every keycode 10. -/
def c4Send : List Nat → List Nat :=
  fun req => if req = [17] then [0, 1] else [0, 0, 0, 0, 0, 10]

/-- Sideloaded layout document: 1x1 matrix, one key labelled "0,0". -/
def c4Payload : Payload :=
  { matrix_rows := 1, matrix_cols := 1
  , keymap_keys := [{ labels := [['0', ',', '0']], row := none, col := none }] }

/-- A session whose DeviceIdentity was already set by an earlier live
discovery. -/
def c4Kb5 : Keyboard := { initKeyboard with vial_protocol := 5, keyboard_id := 7 }

/-- The session state after the sideloaded discovery of `c4Payload`, with the
given DeviceIdentity fields. -/
def c4Res (vp kid : Int) : Keyboard :=
  { rowcol := [((0 : Int), (0 : Int))], layout := [(((0 : Int), (0 : Int), (0 : Int)), 10)]
  , rows := 1, cols := 1, layers := 1
  , keys := [{ labels := [['0', ',', '0']], row := some 0, col := some 0 }]
  , vial_protocol := vp, keyboard_id := kid }

/-- A session caching keycode 3 at (0, 0, 0). -/
def c5Kb : Keyboard := { initKeyboard with layout := [(((0 : Int), (0 : Int), (0 : Int)), 3)] }

/-- `c5Kb` after `set_key 0 0 0 4`. -/
def c5Kb2 : Keyboard := { c5Kb with layout := dictInsert c5Kb.layout (0, 0, 0) 4 }

/-- A session caching keycode 10 at (0, 0, 0). -/
def c6Kb : Keyboard := { initKeyboard with layout := [(((0 : Int), (0 : Int), (0 : Int)), 10)] }

/-- Save document with one in-Keymap cell (value 20) and one out-of-Keymap cell (value 99). -/
def c6Doc : SavedLayout := { version := 0, layout := [[[20, 99]]] }

/-- Three key records: labels "3,7", "" and "xy". -/
def c8Keys : List KeyRec :=
  [ { labels := [['3', ',', '7']], row := none, col := none }
  , { labels := [[]], row := none, col := none }
  , { labels := [['x', 'y']], row := none, col := none } ]

/-- A session caching keycode 10 at (0, 0, 0), for the sentinel-restore scenario. -/
def c9Kb : Keyboard := { initKeyboard with layout := [(((0 : Int), (0 : Int), (0 : Int)), 10)] }

/-- Save document holding the sentinel -1 at its only cell. -/
def c9Doc : SavedLayout := { version := 0, layout := [[[-1]]] }

/-- A populated 1x1x1 session for the save-bounds scenario. -/
def c10Kb : Keyboard :=
  { rowcol := [((0 : Int), (0 : Int))], layout := [(((0 : Int), (0 : Int), (0 : Int)), 10)]
  , rows := 1, cols := 1, layers := 1, keys := [], vial_protocol := -1, keyboard_id := -1 }

/-! ### Dictionary lemmas -/

theorem dictLookup_dictInsert_self (d : List ((Int × Int × Int) × Int)) (k : Int × Int × Int)
    (v : Int) : dictLookup (dictInsert d k v) k = some v := by
  induction d with
  | nil => simp [dictInsert, dictLookup]
  | cons kv rest ih =>
    obtain ⟨k', v'⟩ := kv
    by_cases h : k' = k
    · subst h
      simp [dictInsert, dictLookup]
    · simp [dictInsert, dictLookup, h, ih]

theorem dictLookup_dictInsert_ne (d : List ((Int × Int × Int) × Int)) (k : Int × Int × Int)
    (v : Int) (t : Int × Int × Int) (h : t ≠ k) :
    dictLookup (dictInsert d k v) t = dictLookup d t := by
  induction d with
  | nil =>
    simp only [dictInsert, dictLookup]
    rw [if_neg (fun hh => h hh.symm)]
  | cons kv rest ih =>
    obtain ⟨k', v'⟩ := kv
    by_cases hk : k' = k
    · subst hk
      have hkt : ¬ (k' = t) := fun hh => h hh.symm
      simp [dictInsert, dictLookup, hkt]
    · by_cases ht : k' = t
      · subst ht
        simp [dictInsert, dictLookup, hk]
      · simp [dictInsert, dictLookup, hk, ht, ih]

theorem dictLookup_dictInsert_isSome (d : List ((Int × Int × Int) × Int)) (k : Int × Int × Int)
    (v : Int) (hk : (dictLookup d k).isSome = true) (t : Int × Int × Int) :
    (dictLookup (dictInsert d k v) t).isSome = (dictLookup d t).isSome := by
  by_cases h : t = k
  · subst h
    rw [dictLookup_dictInsert_self, hk]
    rfl
  · rw [dictLookup_dictInsert_ne d k v t h]

/-! ### `set_key` lemmas -/

theorem set_key_noop {kb : Keyboard} {l r c v : Int}
    (h : dictLookup kb.layout (l, r, c) = some v) : set_key kb l r c v = .ok (kb, []) := by
  unfold set_key
  rw [h]
  simp

theorem set_key_write_err {kb : Keyboard} {l r c v cur : Int}
    (h : dictLookup kb.layout (l, r, c) = some cur) (hne : cur ≠ v)
    (henc : canEncodeSetKey l r c v = false) :
    set_key kb l r c v = .error (.structError, kb, []) := by
  unfold set_key
  rw [h]
  simp [hne, henc]

theorem set_key_eq_some {kb : Keyboard} {l r c v cur : Int}
    (h : dictLookup kb.layout (l, r, c) = some cur) :
    set_key kb l r c v =
      if cur ≠ v then
        if canEncodeSetKey l r c v = true then
          .ok ({ kb with layout := dictInsert kb.layout (l, r, c) v }, [WriteReq.mk l r c v])
        else .error (.structError, kb, [])
      else .ok (kb, []) := by
  unfold set_key
  rw [h]

theorem set_key_succeeds {kb : Keyboard} {l r c v cur : Int}
    (h : dictLookup kb.layout (l, r, c) = some cur)
    (hok : v = cur ∨ canEncodeSetKey l r c v = true) :
    ∃ kb' ws, set_key kb l r c v = .ok (kb', ws) := by
  by_cases hne : cur = v
  · exact ⟨kb, [], by rw [set_key_eq_some h, if_neg (by simp [hne])]⟩
  · have henc : canEncodeSetKey l r c v = true := by
      rcases hok with hv | hv
      · exact absurd hv.symm hne
      · exact hv
    exact ⟨{ kb with layout := dictInsert kb.layout (l, r, c) v }, [WriteReq.mk l r c v],
      by rw [set_key_eq_some h, if_pos hne, if_pos henc]⟩

theorem set_key_ok_inv {kb : Keyboard} {l r c v : Int} {kb' : Keyboard} {ws : List WriteReq}
    (h : set_key kb l r c v = .ok (kb', ws)) :
    (∀ t, (dictLookup kb'.layout t).isSome = (dictLookup kb.layout t).isSome) ∧
    (∀ t, t ≠ (l, r, c) → dictLookup kb'.layout t = dictLookup kb.layout t) ∧
    (∀ w ∈ ws, w = WriteReq.mk l r c v) ∧
    (dictLookup kb.layout (l, r, c)).isSome = true := by
  cases hcur : dictLookup kb.layout (l, r, c) with
  | none =>
    rw [set_key, hcur] at h
    simp at h
  | some cur =>
    rw [set_key_eq_some hcur] at h
    by_cases hne : cur ≠ v
    · rw [if_pos hne] at h
      by_cases henc : canEncodeSetKey l r c v = true
      · rw [if_pos henc] at h
        simp only [Except.ok.injEq, Prod.mk.injEq] at h
        obtain ⟨hA, hW⟩ := h
        subst hA
        subst hW
        refine ⟨?_, ?_, by simp, rfl⟩
        · intro t
          exact dictLookup_dictInsert_isSome kb.layout (l, r, c) v (by rw [hcur]; rfl) t
        · intro t ht
          exact dictLookup_dictInsert_ne kb.layout (l, r, c) v t ht
      · rw [if_neg henc] at h
        simp at h
    · rw [if_neg hne] at h
      simp only [Except.ok.injEq, Prod.mk.injEq] at h
      obtain ⟨hA, hW⟩ := h
      subst hA
      subst hW
      exact ⟨fun t => rfl, fun t ht => rfl, by simp, rfl⟩

/-! ### `restore_layout ∘ save_layout` is a no-op -/

theorem restoreRow_noop (kb : Keyboard) (l r : Int) (vals : List Int) :
    ∀ c : Int, (∀ (i : Nat) (v : Int), vals.get? i = some v →
      ∀ cur, dictLookup kb.layout (l, r, c + (i : Int)) = some cur → v = cur) →
    restoreRow kb l r vals c = .ok (kb, []) := by
  induction vals with
  | nil =>
    intro c h
    rfl
  | cons v rest ih =>
    intro c h
    have hshift : ∀ (i : Nat) (v' : Int), rest.get? i = some v' →
        ∀ cur, dictLookup kb.layout (l, r, (c + 1) + (i : Int)) = some cur → v' = cur := by
      intro i v' hi cur hcur
      refine h (i + 1) v' (by simpa using hi) cur ?_
      have harith : c + 1 + (i : Int) = c + ((i + 1 : Nat) : Int) := by
        push_cast
        ring
      rw [← harith]
      exact hcur
    unfold restoreRow
    cases hm : dictLookup kb.layout (l, r, c) with
    | none =>
      simp only [hm, Option.isSome_none, Bool.false_eq_true, if_false, ite_false]
      exact ih (c + 1) hshift
    | some cur =>
      have hv : v = cur := h 0 v rfl cur (by simpa using hm)
      have hsk : set_key kb l r c v = .ok (kb, []) := set_key_noop (by rw [hm, hv])
      simp [hm, hsk, ih (c + 1) hshift]

theorem restoreLayer_noop (kb : Keyboard) (l : Int) (rows : List (List Int)) :
    ∀ r : Int, (∀ (j i : Nat) (v : Int), (rows.get? j).bind (fun row => row.get? i) = some v →
      ∀ cur, dictLookup kb.layout (l, r + (j : Int), (i : Int)) = some cur → v = cur) →
    restoreLayer kb l rows r = .ok (kb, []) := by
  induction rows with
  | nil =>
    intro r h
    rfl
  | cons vals rest ih =>
    intro r h
    have h0 : restoreRow kb l r vals 0 = .ok (kb, []) := by
      refine restoreRow_noop kb l r vals 0 ?_
      intro i v hi cur hcur
      refine h 0 i v (by simpa using hi) cur ?_
      simpa using hcur
    have hrest : restoreLayer kb l rest (r + 1) = .ok (kb, []) := by
      refine ih (r + 1) ?_
      intro j i v hj cur hcur
      refine h (j + 1) i v (by simpa using hj) cur ?_
      have harith : r + 1 + (j : Int) = r + ((j + 1 : Nat) : Int) := by
        push_cast
        ring
      rw [← harith]
      exact hcur
    unfold restoreLayer
    simp [h0, hrest]

theorem restoreLayers_noop (kb : Keyboard) (ls : List (List (List Int))) :
    ∀ l : Int, (∀ (i j k : Nat) (v : Int),
      ((ls.get? i).bind (fun layer => (layer.get? j).bind (fun row => row.get? k))) = some v →
      ∀ cur, dictLookup kb.layout (l + (i : Int), (j : Int), (k : Int)) = some cur → v = cur) →
    restoreLayers kb ls l = .ok (kb, []) := by
  induction ls with
  | nil =>
    intro l h
    rfl
  | cons layer rest ih =>
    intro l h
    have h0 : restoreLayer kb l layer 0 = .ok (kb, []) := by
      refine restoreLayer_noop kb l layer 0 ?_
      intro j i v hj cur hcur
      refine h 0 j i v (by simpa using hj) cur ?_
      simpa using hcur
    have hrest : restoreLayers kb rest (l + 1) = .ok (kb, []) := by
      refine ih (l + 1) ?_
      intro i j k v hi cur hcur
      refine h (i + 1) j k v (by simpa using hi) cur ?_
      have harith : l + 1 + (i : Int) = l + ((i + 1 : Nat) : Int) := by
        push_cast
        ring
      rw [← harith]
      exact hcur
    unfold restoreLayers
    simp [h0, hrest]

theorem get?_range_eq (n i : Nat) : (List.range n).get? i = if i < n then some i else none := by
  by_cases h : i < n
  · rw [if_pos h, List.get?_range h]
  · rw [if_neg h, List.get?_eq_none.mpr (by simpa [List.length_range] using Nat.le_of_not_lt h)]

theorem intRange_getElem? (n : Int) (i : Nat) :
    (intRange n)[i]? = if i < n.toNat then some ((i : Int)) else none := by
  rw [← List.get?_eq_getElem?]
  unfold intRange
  rw [List.get?_map, get?_range_eq]
  by_cases h : i < n.toNat
  · rw [if_pos h, if_pos h]
    rfl
  · rw [if_neg h, if_neg h]
    rfl

theorem entryAt_save (kb : Keyboard) (i j k : Nat) :
    entryAt (save_layout kb) i j k =
      if i < kb.layers.toNat ∧ j < kb.rows.toNat ∧ k < kb.cols.toNat then
        some ((dictLookup kb.layout ((i : Int), (j : Int), (k : Int))).getD (-1))
      else none := by
  unfold entryAt save_layout
  rw [List.getElem?_map, intRange_getElem?]
  by_cases hi : i < kb.layers.toNat
  · rw [if_pos hi]
    simp only [Option.map_some', Option.some_bind]
    rw [List.getElem?_map, intRange_getElem?]
    by_cases hj : j < kb.rows.toNat
    · rw [if_pos hj]
      simp only [Option.map_some', Option.some_bind]
      rw [List.getElem?_map, intRange_getElem?]
      by_cases hk : k < kb.cols.toNat
      · rw [if_pos hk, if_pos ⟨hi, hj, hk⟩]
        rfl
      · rw [if_neg hk, if_neg (by tauto)]
        rfl
    · rw [if_neg hj, if_neg (by tauto)]
      rfl
  · rw [if_neg hi, if_neg (by tauto)]
    rfl

theorem restore_layout_save (kb : Keyboard) :
    restore_layout kb (save_layout kb) = .ok (kb, []) := by
  unfold restore_layout
  refine restoreLayers_noop kb (save_layout kb).layout 0 ?_
  intro i j k v hv cur hcur
  have hv' : entryAt (save_layout kb) i j k = some v := by
    rw [entryAt]
    simpa [List.get?_eq_getElem?] using hv
  rw [entryAt_save] at hv'
  by_cases hb : i < kb.layers.toNat ∧ j < kb.rows.toNat ∧ k < kb.cols.toNat
  · rw [if_pos hb] at hv'
    have hcur' : dictLookup kb.layout ((i : Int), (j : Int), (k : Int)) = some cur := by
      simpa using hcur
    rw [hcur'] at hv'
    simpa using hv'.symm
  · rw [if_neg hb] at hv'
    exact absurd hv' (by simp)
theorem ceil_step (M sz : Nat) (hM : 0 < M) (hsz : 0 < sz) :
    (sz + M - 1) / M = ((sz - M) + M - 1) / M + 1 := by
  rcases le_or_lt M sz with h | h
  · have h1 : sz + M - 1 = (sz - 1) + M := by omega
    have h2 : (sz - M) + M - 1 = sz - 1 := by omega
    rw [h1, h2, Nat.add_div_right _ hM]
  · have h2 : sz - M = 0 := by omega
    rw [h2]
    have h3 : (0 + M - 1) / M = 0 := Nat.div_eq_of_lt (by omega)
    have h4 : (sz + M - 1) / M = 1 := by
      have h5 : sz + M - 1 = (sz - 1) + M := by omega
      rw [h5, Nat.add_div_right _ hM, Nat.div_eq_of_lt (by omega)]
    omega

theorem fetchLoop_spec (send : List Nat → List Nat) (M : Nat) (hM : 0 < M)
    (hlen : ∀ req, (send req).length = M) :
    ∀ fuel sz block, sz ≤ fuel →
      ∃ p b, fetchLoop send M fuel sz block = some (p, b) ∧
        p.length = sz ∧ b = List.range' block ((sz + M - 1) / M) := by
  intro fuel
  induction fuel with
  | zero =>
    intro sz block hsz
    have h0 : sz = 0 := Nat.le_zero.mp hsz
    subst h0
    refine ⟨[], [], rfl, rfl, ?_⟩
    rw [show (0 + M - 1) / M = 0 from Nat.div_eq_of_lt (by omega)]
    rfl
  | succ fuel ih =>
    intro sz block hsz
    cases sz with
    | zero =>
      refine ⟨[], [], rfl, rfl, ?_⟩
      rw [show (0 + M - 1) / M = 0 from Nat.div_eq_of_lt (by omega)]
      rfl
    | succ s =>
      obtain ⟨p, b, hfl, hplen, hb⟩ := ih (s + 1 - M) (block + 1) (by omega)
      refine ⟨(if s + 1 < M then (send (chunkReq block)).take (s + 1)
          else send (chunkReq block)) ++ p, block :: b, ?_, ?_, ?_⟩
      · simp only [fetchLoop, hfl]
      · rw [List.length_append, hplen]
        by_cases hc : s + 1 < M
        · rw [if_pos hc, List.length_take, hlen]
          omega
        · rw [if_neg hc, hlen]
          omega
      · rw [hb, ceil_step M (s + 1) hM (by omega)]
        rfl

theorem fetchChunks_spec (send : List Nat → List Nat) (M S : Nat) (hM : 0 < M)
    (hlen : ∀ req, (send req).length = M) :
    (fetchChunks send M S 0).1.length = S ∧
    (fetchChunks send M S 0).2 = List.range ((S + M - 1) / M) := by
  obtain ⟨p, b, hfl, hplen, hb⟩ := fetchLoop_spec send M hM hlen S S 0 le_rfl
  unfold fetchChunks
  rw [hfl]
  constructor
  · simpa using hplen
  · simpa [List.range_eq_range'] using hb
theorem processKeys_ok (todo : List KeyRec) :
    ∀ (kb : Keyboard) (done : List KeyRec),
      (∀ k ∈ todo, labelOk (k.labels.getD 0 []) = true) →
      ∃ kb', processKeys kb done todo = .ok kb' ∧
        kb'.rowcol = odInsertAll kb.rowcol (coordsOf todo) ∧
        kb'.layout = kb.layout ∧ kb'.rows = kb.rows ∧ kb'.cols = kb.cols ∧
        kb'.layers = kb.layers ∧ kb'.vial_protocol = kb.vial_protocol ∧
        kb'.keyboard_id = kb.keyboard_id := by
  induction todo with
  | nil =>
    intro kb done hok
    exact ⟨{ kb with keys := done }, rfl, rfl, rfl, rfl, rfl, rfl, rfl, rfl⟩
  | cons key rest ih =>
    intro kb done hok
    have hk : labelOk (key.labels.getD 0 []) = true := hok key (by simp)
    have hrest : ∀ k ∈ rest, labelOk (k.labels.getD 0 []) = true :=
      fun k hkr => hok k (by simp [hkr])
    simp only [processKeys]
    cases hlc : labelCoord (key.labels.getD 0 []) with
    | error e =>
      unfold labelOk at hk
      rw [hlc] at hk
      simp at hk
    | ok o =>
      cases o with
      | none =>
        obtain ⟨kb', h1, h2, h3⟩ := ih kb (done ++ [{ key with row := none, col := none }]) hrest
        refine ⟨kb', h1, ?_, h3⟩
        rw [h2]
        have hco : coordOf key = none := by
          unfold coordOf
          rw [hlc]
        simp [coordsOf, hco]
      | some rc =>
        obtain ⟨r, c⟩ := rc
        obtain ⟨kb', h1, h2, h3⟩ :=
          ih { kb with rowcol := odInsert kb.rowcol (r, c) }
            (done ++ [{ key with row := some r, col := some c }]) hrest
        refine ⟨kb', h1, ?_, h3⟩
        rw [h2]
        have hco : coordOf key = some (r, c) := by
          unfold coordOf
          rw [hlc]
        simp [coordsOf, hco, odInsertAll]

theorem odInsertAll_eq_append (cs : List (Int × Int)) :
    ∀ d : List (Int × Int), (∀ c ∈ cs, c ∉ d) → cs.Nodup → odInsertAll d cs = d ++ cs := by
  induction cs with
  | nil =>
    intro d h hn
    simp [odInsertAll]
  | cons c rest ih =>
    intro d h hn
    have hc : c ∉ d := h c (by simp)
    have hstep : odInsert d c = d ++ [c] := by rw [odInsert, if_neg hc]
    obtain ⟨hcr, hrn⟩ := List.nodup_cons.mp hn
    have h1 : ∀ c' ∈ rest, c' ∉ d ++ [c] := by
      intro c' hc'
      simp only [List.mem_append, List.mem_singleton]
      rintro (hd | he)
      · exact h c' (by simp [hc']) hd
      · exact hcr (he ▸ hc')
    have := ih (d ++ [c]) h1 hrn
    show List.foldl odInsert d (c :: rest) = _
    rw [List.foldl_cons, hstep]
    rw [show List.foldl odInsert (d ++ [c]) rest = odInsertAll (d ++ [c]) rest from rfl, this]
    simp

/-! id preservation -/

theorem idPres_trans {kb kb1 : Keyboard} {x : Except (PErr × Keyboard) Keyboard}
    (hf : kb1.vial_protocol = kb.vial_protocol ∧ kb1.keyboard_id = kb.keyboard_id)
    (h : idPres kb1 x) : idPres kb x :=
  ⟨fun kb' hx => ⟨((h.1 kb' hx).1).trans hf.1, ((h.1 kb' hx).2).trans hf.2⟩,
   fun e kbE hx => ⟨((h.2 e kbE hx).1).trans hf.1, ((h.2 e kbE hx).2).trans hf.2⟩⟩

theorem idPres_ok {kb kb1 : Keyboard}
    (hf : kb1.vial_protocol = kb.vial_protocol ∧ kb1.keyboard_id = kb.keyboard_id) :
    idPres kb (.ok kb1) := by
  constructor
  · intro kb' h
    injection h with h
    subst h
    exact hf
  · intro e kbE h
    exact Except.noConfusion h

theorem idPres_error {kb : Keyboard} {e0 : PErr} {kbE0 : Keyboard}
    (hf : kbE0.vial_protocol = kb.vial_protocol ∧ kbE0.keyboard_id = kb.keyboard_id) :
    idPres kb (.error (e0, kbE0)) := by
  constructor
  · intro kb' h
    exact Except.noConfusion h
  · intro e kbE h
    injection h with h
    rw [Prod.mk.injEq] at h
    obtain ⟨h1, h2⟩ := h
    subst h2
    exact hf
theorem idPres_processKeys (todo : List KeyRec) :
    ∀ (kb : Keyboard) (done : List KeyRec), idPres kb (processKeys kb done todo) := by
  induction todo with
  | nil =>
    intro kb done
    exact idPres_ok ⟨rfl, rfl⟩
  | cons key rest ih =>
    intro kb done
    simp only [processKeys]
    cases hlc : labelCoord (key.labels.getD 0 []) with
    | error e => exact idPres_error ⟨rfl, rfl⟩
    | ok o =>
      cases o with
      | none => exact ih kb (done ++ [{ key with row := none, col := none }])
      | some rc =>
        obtain ⟨r, c⟩ := rc
        exact ih { kb with rowcol := odInsert kb.rowcol (r, c) }
          (done ++ [{ key with row := some r, col := some c }])

theorem idPres_reload_layers (send : List Nat → List Nat) (kb : Keyboard) :
    idPres kb (reload_layers send kb) := by
  unfold reload_layers
  cases h : (send [17]).get? 1 with
  | none => exact idPres_error ⟨rfl, rfl⟩
  | some b => exact idPres_ok ⟨rfl, rfl⟩

theorem idPres_reload_keymap_row (send : List Nat → List Nat) (layer : Int) :
    ∀ (rcs : List (Int × Int)) (kb : Keyboard), idPres kb (reload_keymap_row send kb layer rcs) := by
  intro rcs
  induction rcs with
  | nil =>
    intro kb
    exact idPres_ok ⟨rfl, rfl⟩
  | cons rc rest ih =>
    intro kb
    simp only [reload_keymap_row]
    cases hreq : getKeycodeReq layer rc with
    | none =>
      exact idPres_error ⟨rfl, rfl⟩
    | some req =>
      dsimp only
      cases hbe : be16at (send req) 4 with
      | none => exact idPres_error ⟨rfl, rfl⟩
      | some kc =>
        exact idPres_trans ⟨rfl, rfl⟩
          (ih { kb with layout := dictInsert kb.layout (layer, rc.1, rc.2) kc })

theorem idPres_reload_keymap_layers (send : List Nat → List Nat) :
    ∀ (ls : List Int) (kb : Keyboard), idPres kb (reload_keymap_layers send kb ls) := by
  intro ls
  induction ls with
  | nil =>
    intro kb
    exact idPres_ok ⟨rfl, rfl⟩
  | cons l rest ih =>
    intro kb
    simp only [reload_keymap_layers]
    have h1 := idPres_reload_keymap_row send l kb.rowcol kb
    cases hrow : reload_keymap_row send kb l kb.rowcol with
    | error e =>
      obtain ⟨e1, kbE⟩ := e
      exact idPres_error (h1.2 e1 kbE hrow)
    | ok kb1 =>
      exact idPres_trans (h1.1 kb1 hrow) (ih kb1)

theorem idPres_reload_keymap (send : List Nat → List Nat) (kb : Keyboard) :
    idPres kb (reload_keymap send kb) :=
  idPres_reload_keymap_layers send (intRange kb.layers) kb

theorem idPres_reload_sideload (send : List Nat → List Nat) (dp : List Nat → Option Payload)
    (M : Nat) (kb : Keyboard) (p : Payload) :
    idPres kb (reload send dp M kb (some p)) := by
  unfold reload reload_layout reload_layout_post
  dsimp only
  have h1 : idPres kb (processKeys
      { kb with rowcol := [], layout := [], rows := p.matrix_rows, cols := p.matrix_cols }
      [] p.keymap_keys) :=
    idPres_trans ⟨rfl, rfl⟩ (idPres_processKeys p.keymap_keys
      { kb with rowcol := [], layout := [], rows := p.matrix_rows, cols := p.matrix_cols } [])
  cases hpk : processKeys
      { kb with rowcol := [], layout := [], rows := p.matrix_rows, cols := p.matrix_cols }
      [] p.keymap_keys with
  | error e =>
    obtain ⟨e1, kbE⟩ := e
    exact idPres_error (h1.2 e1 kbE hpk)
  | ok kb1 =>
    dsimp only
    have hf1 := h1.1 kb1 hpk
    have h2 := idPres_reload_layers send kb1
    cases hrl : reload_layers send kb1 with
    | error e =>
      obtain ⟨e1, kbE⟩ := e
      exact idPres_error ⟨((h2.2 e1 kbE hrl).1).trans hf1.1, ((h2.2 e1 kbE hrl).2).trans hf1.2⟩
    | ok kb2 =>
      dsimp only
      have hf2 := h2.1 kb2 hrl
      exact idPres_trans ⟨hf2.1.trans hf1.1, hf2.2.trans hf1.2⟩ (idPres_reload_keymap send kb2)
theorem tuple_ne_of_ne {l r c : Int} (t : Int × Int × Int) (ht : t.1 ≠ l ∨ t.2.1 ≠ r) :
    t ≠ (l, r, c) := by
  obtain ⟨a, b, d⟩ := t
  rcases ht with h1 | h1
  · intro heq
    simp only [Prod.mk.injEq] at heq
    exact h1 heq.1
  · intro heq
    simp only [Prod.mk.injEq] at heq
    exact h1 heq.2.1

theorem restoreRow_ok_inv (l r : Int) (vals : List Int) :
    ∀ (kb : Keyboard) (c : Int) (kb' : Keyboard) (ws : List WriteReq),
      restoreRow kb l r vals c = .ok (kb', ws) →
      (∀ t, (dictLookup kb'.layout t).isSome = (dictLookup kb.layout t).isSome) ∧
      (∀ t, t.1 ≠ l ∨ t.2.1 ≠ r → dictLookup kb'.layout t = dictLookup kb.layout t) ∧
      (∀ w ∈ ws, w.l = l ∧ w.r = r ∧ (dictLookup kb.layout (w.l, w.r, w.c)).isSome = true) := by
  induction vals with
  | nil =>
    intro kb c kb' ws h
    simp only [restoreRow, Except.ok.injEq, Prod.mk.injEq] at h
    obtain ⟨h1, h2⟩ := h
    subst h1
    subst h2
    exact ⟨fun t => rfl, fun t ht => rfl, by simp⟩
  | cons v rest ih =>
    intro kb c kb' ws h
    simp only [restoreRow] at h
    by_cases hm : (dictLookup kb.layout (l, r, c)).isSome = true
    · rw [if_pos hm] at h
      cases hsk : set_key kb l r c v with
      | error e =>
        rw [hsk] at h
        simp at h
      | ok pair =>
        obtain ⟨kb1, ws1⟩ := pair
        rw [hsk] at h
        dsimp only at h
        obtain ⟨s1, s2, s3, s4⟩ := set_key_ok_inv hsk
        cases hrr : restoreRow kb1 l r rest (c + 1) with
        | error e3 =>
          obtain ⟨ea, eb, ec⟩ := e3
          rw [hrr] at h
          simp at h
        | ok pair2 =>
          obtain ⟨kb2, ws2⟩ := pair2
          rw [hrr] at h
          dsimp only at h
          simp only [Except.ok.injEq, Prod.mk.injEq] at h
          obtain ⟨h1, h2⟩ := h
          subst h1
          subst h2
          obtain ⟨i1, i2, i3⟩ := ih kb1 (c + 1) kb2 ws2 hrr
          refine ⟨fun t => (i1 t).trans (s1 t), ?_, ?_⟩
          · intro t ht
            exact (i2 t ht).trans (s2 t (tuple_ne_of_ne t ht))
          · intro w hw
            rcases List.mem_append.mp hw with hw1 | hw2
            · have hwv := s3 w hw1
              subst hwv
              exact ⟨rfl, rfl, s4⟩
            · obtain ⟨w1, w2, w3⟩ := i3 w hw2
              exact ⟨w1, w2, (s1 (w.l, w.r, w.c)).symm.trans w3⟩
    · rw [if_neg hm] at h
      exact ih kb (c + 1) kb' ws h

theorem restoreRow_exists (l r : Int) (vals : List Int) :
    ∀ (kb : Keyboard) (c : Int),
      (∀ (i : Nat) (v : Int), vals.get? i = some v →
        ∀ cur, dictLookup kb.layout (l, r, c + (i : Int)) = some cur →
          v = cur ∨ canEncodeSetKey l r (c + (i : Int)) v = true) →
      ∃ kb' ws, restoreRow kb l r vals c = .ok (kb', ws) := by
  induction vals with
  | nil =>
    intro kb c h
    exact ⟨kb, [], rfl⟩
  | cons v rest ih =>
    intro kb c h
    by_cases hm : (dictLookup kb.layout (l, r, c)).isSome = true
    · obtain ⟨cur, hcur⟩ := Option.isSome_iff_exists.mp hm
      have hvc : v = cur ∨ canEncodeSetKey l r c v = true := by
        have h0 := h 0 v rfl cur (by simpa using hcur)
        simpa using h0
      obtain ⟨kb1, ws1, hsk⟩ := set_key_succeeds hcur hvc
      obtain ⟨s1, s2, s3, s4⟩ := set_key_ok_inv hsk
      have hshift : ∀ (i : Nat) (v' : Int), rest.get? i = some v' →
          ∀ cur', dictLookup kb1.layout (l, r, (c + 1) + (i : Int)) = some cur' →
            v' = cur' ∨ canEncodeSetKey l r ((c + 1) + (i : Int)) v' = true := by
        intro i v' hi cur' hcur'
        have hne : ((l, r, c + 1 + (i : Int)) : Int × Int × Int) ≠ (l, r, c) := by
          intro heq
          simp only [Prod.mk.injEq] at heq
          omega
        have hcur'' : dictLookup kb.layout (l, r, c + 1 + (i : Int)) = some cur' := by
          rw [← s2 (l, r, c + 1 + (i : Int)) hne]
          exact hcur'
        have harith : c + ((i + 1 : Nat) : Int) = c + 1 + (i : Int) := by
          push_cast
          ring
        have h1 := h (i + 1) v' (by simpa using hi) cur' (by rw [harith]; exact hcur'')
        rwa [harith] at h1
      obtain ⟨kb2, ws2, hrr⟩ := ih kb1 (c + 1) hshift
      refine ⟨kb2, ws1 ++ ws2, ?_⟩
      simp only [restoreRow]
      rw [if_pos hm, hsk]
      dsimp only
      rw [hrr]
    · have hshift : ∀ (i : Nat) (v' : Int), rest.get? i = some v' →
          ∀ cur', dictLookup kb.layout (l, r, (c + 1) + (i : Int)) = some cur' →
            v' = cur' ∨ canEncodeSetKey l r ((c + 1) + (i : Int)) v' = true := by
        intro i v' hi cur' hcur'
        have harith : c + ((i + 1 : Nat) : Int) = c + 1 + (i : Int) := by
          push_cast
          ring
        have h1 := h (i + 1) v' (by simpa using hi) cur' (by rw [harith]; exact hcur')
        rwa [harith] at h1
      obtain ⟨kb2, ws2, hrr⟩ := ih kb (c + 1) hshift
      refine ⟨kb2, ws2, ?_⟩
      simp only [restoreRow]
      rw [if_neg hm, hrr]

theorem restoreRow_err (l r : Int) (vals : List Int) :
    ∀ (kb : Keyboard) (c : Int) (i : Nat) (v cur : Int),
      vals.get? i = some v →
      dictLookup kb.layout (l, r, c + (i : Int)) = some cur →
      cur ≠ v → canEncodeSetKey l r (c + (i : Int)) v = false →
      ∃ e, restoreRow kb l r vals c = .error e := by
  induction vals with
  | nil =>
    intro kb c i v cur hi
    simp at hi
  | cons v0 rest ih =>
    intro kb c i v cur hi hcur hne henc
    cases i with
    | zero =>
      have hv0 : v0 = v := by simpa using hi
      subst hv0
      have hcur0 : dictLookup kb.layout (l, r, c) = some cur := by simpa using hcur
      have henc0 : canEncodeSetKey l r c v0 = false := by simpa using henc
      have hm : (dictLookup kb.layout (l, r, c)).isSome = true := by
        rw [hcur0]
        rfl
      have hsk := set_key_write_err hcur0 hne henc0
      refine ⟨(.structError, kb, []), ?_⟩
      simp only [restoreRow]
      rw [if_pos hm, hsk]
    | succ i' =>
      have hi' : rest.get? i' = some v := by simpa using hi
      have harith : c + ((i' + 1 : Nat) : Int) = (c + 1) + (i' : Int) := by
        push_cast
        ring
      have hcur' : dictLookup kb.layout (l, r, (c + 1) + (i' : Int)) = some cur := by
        rw [← harith]
        exact hcur
      have henc' : canEncodeSetKey l r ((c + 1) + (i' : Int)) v = false := by
        rw [← harith]
        exact henc
      by_cases hm : (dictLookup kb.layout (l, r, c)).isSome = true
      · cases hsk : set_key kb l r c v0 with
        | error e =>
          refine ⟨e, ?_⟩
          simp only [restoreRow]
          rw [if_pos hm, hsk]
        | ok pair =>
          obtain ⟨kb1, ws1⟩ := pair
          obtain ⟨s1, s2, s3, s4⟩ := set_key_ok_inv hsk
          have hne2 : ((l, r, c + 1 + (i' : Int)) : Int × Int × Int) ≠ (l, r, c) := by
            intro heq
            simp only [Prod.mk.injEq] at heq
            omega
          have hcur1 : dictLookup kb1.layout (l, r, (c + 1) + (i' : Int)) = some cur := by
            rw [s2 _ hne2]
            exact hcur'
          obtain ⟨e2, hrr⟩ := ih kb1 (c + 1) i' v cur hi' hcur1 hne henc'
          obtain ⟨ea, eb, ec⟩ := e2
          refine ⟨(ea, eb, ws1 ++ ec), ?_⟩
          simp only [restoreRow]
          rw [if_pos hm, hsk]
          dsimp only
          simp [hrr]
      · obtain ⟨e2, hrr⟩ := ih kb (c + 1) i' v cur hi' hcur' hne henc'
        refine ⟨e2, ?_⟩
        simp only [restoreRow]
        rw [if_neg hm, hrr]
theorem restoreLayer_ok_inv (l : Int) (rows : List (List Int)) :
    ∀ (kb : Keyboard) (r : Int) (kb' : Keyboard) (ws : List WriteReq),
      restoreLayer kb l rows r = .ok (kb', ws) →
      (∀ t, (dictLookup kb'.layout t).isSome = (dictLookup kb.layout t).isSome) ∧
      (∀ t, t.1 ≠ l → dictLookup kb'.layout t = dictLookup kb.layout t) ∧
      (∀ w ∈ ws, w.l = l ∧ (dictLookup kb.layout (w.l, w.r, w.c)).isSome = true) := by
  induction rows with
  | nil =>
    intro kb r kb' ws h
    simp only [restoreLayer, Except.ok.injEq, Prod.mk.injEq] at h
    obtain ⟨h1, h2⟩ := h
    subst h1
    subst h2
    exact ⟨fun t => rfl, fun t ht => rfl, by simp⟩
  | cons vals rest ih =>
    intro kb r kb' ws h
    simp only [restoreLayer] at h
    cases hrw : restoreRow kb l r vals 0 with
    | error e =>
      rw [hrw] at h
      simp at h
    | ok pair =>
      obtain ⟨kb1, ws1⟩ := pair
      rw [hrw] at h
      dsimp only at h
      obtain ⟨a1, a2, a3⟩ := restoreRow_ok_inv l r vals kb 0 kb1 ws1 hrw
      cases hrl : restoreLayer kb1 l rest (r + 1) with
      | error e3 =>
        obtain ⟨ea, eb, ec⟩ := e3
        rw [hrl] at h
        simp at h
      | ok pair2 =>
        obtain ⟨kb2, ws2⟩ := pair2
        rw [hrl] at h
        dsimp only at h
        simp only [Except.ok.injEq, Prod.mk.injEq] at h
        obtain ⟨h1, h2⟩ := h
        subst h1
        subst h2
        obtain ⟨b1, b2, b3⟩ := ih kb1 (r + 1) kb2 ws2 hrl
        refine ⟨fun t => (b1 t).trans (a1 t), ?_, ?_⟩
        · intro t ht
          exact (b2 t ht).trans (a2 t (Or.inl ht))
        · intro w hw
          rcases List.mem_append.mp hw with hw1 | hw2
          · obtain ⟨w1, w2, w3⟩ := a3 w hw1
            exact ⟨w1, w3⟩
          · obtain ⟨w1, w2⟩ := b3 w hw2
            exact ⟨w1, (a1 (w.l, w.r, w.c)).symm.trans w2⟩

theorem restoreLayer_exists (l : Int) (rows : List (List Int)) :
    ∀ (kb : Keyboard) (r : Int),
      (∀ (j i : Nat) (v : Int), (rows.get? j).bind (fun row => row.get? i) = some v →
        ∀ cur, dictLookup kb.layout (l, r + (j : Int), (i : Int)) = some cur →
          v = cur ∨ canEncodeSetKey l (r + (j : Int)) ((i : Int)) v = true) →
      ∃ kb' ws, restoreLayer kb l rows r = .ok (kb', ws) := by
  induction rows with
  | nil =>
    intro kb r h
    exact ⟨kb, [], rfl⟩
  | cons vals rest ih =>
    intro kb r h
    have hrow : ∀ (i : Nat) (v : Int), vals.get? i = some v →
        ∀ cur, dictLookup kb.layout (l, r, (0 : Int) + (i : Int)) = some cur →
          v = cur ∨ canEncodeSetKey l r ((0 : Int) + (i : Int)) v = true := by
      intro i v hi cur hcur
      have h0 := h 0 i v (by simpa using hi) cur (by simpa using hcur)
      simpa using h0
    obtain ⟨kb1, ws1, hrw⟩ := restoreRow_exists l r vals kb 0 hrow
    obtain ⟨a1, a2, a3⟩ := restoreRow_ok_inv l r vals kb 0 kb1 ws1 hrw
    have hshift : ∀ (j i : Nat) (v : Int), (rest.get? j).bind (fun row => row.get? i) = some v →
        ∀ cur, dictLookup kb1.layout (l, (r + 1) + (j : Int), (i : Int)) = some cur →
          v = cur ∨ canEncodeSetKey l ((r + 1) + (j : Int)) ((i : Int)) v = true := by
      intro j i v hj cur hcur
      have hne : (r + 1) + (j : Int) ≠ r := by omega
      have hcur' : dictLookup kb.layout (l, (r + 1) + (j : Int), (i : Int)) = some cur := by
        rw [← a2 (l, (r + 1) + (j : Int), (i : Int)) (Or.inr hne)]
        exact hcur
      have harith : r + ((j + 1 : Nat) : Int) = (r + 1) + (j : Int) := by
        push_cast
        ring
      have h1 := h (j + 1) i v (by simpa using hj) cur (by rw [harith]; exact hcur')
      rwa [harith] at h1
    obtain ⟨kb2, ws2, hrl⟩ := ih kb1 (r + 1) hshift
    refine ⟨kb2, ws1 ++ ws2, ?_⟩
    simp only [restoreLayer]
    rw [hrw]
    dsimp only
    rw [hrl]

theorem restoreLayer_err (l : Int) (rows : List (List Int)) :
    ∀ (kb : Keyboard) (r : Int) (j i : Nat) (row : List Int) (v cur : Int),
      rows.get? j = some row → row.get? i = some v →
      dictLookup kb.layout (l, r + (j : Int), (i : Int)) = some cur →
      cur ≠ v → canEncodeSetKey l (r + (j : Int)) ((i : Int)) v = false →
      ∃ e, restoreLayer kb l rows r = .error e := by
  induction rows with
  | nil =>
    intro kb r j i row v cur hj
    simp at hj
  | cons vals rest ih =>
    intro kb r j i row v cur hj hi hcur hne henc
    cases j with
    | zero =>
      have hrow : vals = row := by simpa using hj
      subst hrow
      have hcur0 : dictLookup kb.layout (l, r, (0 : Int) + (i : Int)) = some cur := by
        simpa using hcur
      have henc0 : canEncodeSetKey l r ((0 : Int) + (i : Int)) v = false := by
        simpa using henc
      obtain ⟨e, hrw⟩ := restoreRow_err l r vals kb 0 i v cur hi hcur0 hne henc0
      refine ⟨e, ?_⟩
      simp only [restoreLayer]
      rw [hrw]
    | succ j' =>
      have hj' : rest.get? j' = some row := by simpa using hj
      have harith : r + ((j' + 1 : Nat) : Int) = (r + 1) + (j' : Int) := by
        push_cast
        ring
      have hcur' : dictLookup kb.layout (l, (r + 1) + (j' : Int), (i : Int)) = some cur := by
        rw [← harith]
        exact hcur
      have henc' : canEncodeSetKey l ((r + 1) + (j' : Int)) ((i : Int)) v = false := by
        rw [← harith]
        exact henc
      cases hrw : restoreRow kb l r vals 0 with
      | error e =>
        refine ⟨e, ?_⟩
        simp only [restoreLayer]
        rw [hrw]
      | ok pair =>
        obtain ⟨kb1, ws1⟩ := pair
        obtain ⟨a1, a2, a3⟩ := restoreRow_ok_inv l r vals kb 0 kb1 ws1 hrw
        have hne2 : (r + 1) + (j' : Int) ≠ r := by omega
        have hcur1 : dictLookup kb1.layout (l, (r + 1) + (j' : Int), (i : Int)) = some cur := by
          rw [a2 (l, (r + 1) + (j' : Int), (i : Int)) (Or.inr hne2)]
          exact hcur'
        obtain ⟨e2, hrl⟩ := ih kb1 (r + 1) j' i row v cur hj' hi hcur1 hne henc'
        obtain ⟨ea, eb, ec⟩ := e2
        refine ⟨(ea, eb, ws1 ++ ec), ?_⟩
        simp only [restoreLayer]
        rw [hrw]
        dsimp only
        simp [hrl]
theorem restoreLayers_ok_inv (ls : List (List (List Int))) :
    ∀ (kb : Keyboard) (l : Int) (kb' : Keyboard) (ws : List WriteReq),
      restoreLayers kb ls l = .ok (kb', ws) →
      (∀ t, (dictLookup kb'.layout t).isSome = (dictLookup kb.layout t).isSome) ∧
      (∀ w ∈ ws, (dictLookup kb.layout (w.l, w.r, w.c)).isSome = true) := by
  induction ls with
  | nil =>
    intro kb l kb' ws h
    simp only [restoreLayers, Except.ok.injEq, Prod.mk.injEq] at h
    obtain ⟨h1, h2⟩ := h
    subst h1
    subst h2
    exact ⟨fun t => rfl, by simp⟩
  | cons layer rest ih =>
    intro kb l kb' ws h
    simp only [restoreLayers] at h
    cases hrl : restoreLayer kb l layer 0 with
    | error e =>
      rw [hrl] at h
      simp at h
    | ok pair =>
      obtain ⟨kb1, ws1⟩ := pair
      rw [hrl] at h
      dsimp only at h
      obtain ⟨a1, a2, a3⟩ := restoreLayer_ok_inv l layer kb 0 kb1 ws1 hrl
      cases hrs : restoreLayers kb1 rest (l + 1) with
      | error e3 =>
        obtain ⟨ea, eb, ec⟩ := e3
        rw [hrs] at h
        simp at h
      | ok pair2 =>
        obtain ⟨kb2, ws2⟩ := pair2
        rw [hrs] at h
        dsimp only at h
        simp only [Except.ok.injEq, Prod.mk.injEq] at h
        obtain ⟨h1, h2⟩ := h
        subst h1
        subst h2
        obtain ⟨b1, b2⟩ := ih kb1 (l + 1) kb2 ws2 hrs
        refine ⟨fun t => (b1 t).trans (a1 t), ?_⟩
        intro w hw
        rcases List.mem_append.mp hw with hw1 | hw2
        · exact (a3 w hw1).2
        · exact (a1 (w.l, w.r, w.c)).symm.trans (b2 w hw2)

theorem restoreLayers_exists (ls : List (List (List Int))) :
    ∀ (kb : Keyboard) (l : Int),
      (∀ (i j k : Nat) (v : Int),
        ((ls.get? i).bind (fun layer => (layer.get? j).bind (fun row => row.get? k))) = some v →
        ∀ cur, dictLookup kb.layout (l + (i : Int), (j : Int), (k : Int)) = some cur →
          v = cur ∨ canEncodeSetKey (l + (i : Int)) ((j : Int)) ((k : Int)) v = true) →
      ∃ kb' ws, restoreLayers kb ls l = .ok (kb', ws) := by
  induction ls with
  | nil =>
    intro kb l h
    exact ⟨kb, [], rfl⟩
  | cons layer rest ih =>
    intro kb l h
    have hlayer : ∀ (j i : Nat) (v : Int), (layer.get? j).bind (fun row => row.get? i) = some v →
        ∀ cur, dictLookup kb.layout (l, (0 : Int) + (j : Int), (i : Int)) = some cur →
          v = cur ∨ canEncodeSetKey l ((0 : Int) + (j : Int)) ((i : Int)) v = true := by
      intro j i v hj cur hcur
      have h0 := h 0 j i v (by simpa using hj) cur (by simpa using hcur)
      simpa using h0
    obtain ⟨kb1, ws1, hrl⟩ := restoreLayer_exists l layer kb 0 hlayer
    obtain ⟨a1, a2, a3⟩ := restoreLayer_ok_inv l layer kb 0 kb1 ws1 hrl
    have hshift : ∀ (i j k : Nat) (v : Int),
        ((rest.get? i).bind (fun layer => (layer.get? j).bind (fun row => row.get? k))) = some v →
        ∀ cur, dictLookup kb1.layout ((l + 1) + (i : Int), (j : Int), (k : Int)) = some cur →
          v = cur ∨ canEncodeSetKey ((l + 1) + (i : Int)) ((j : Int)) ((k : Int)) v = true := by
      intro i j k v hi cur hcur
      have hne : (l + 1) + (i : Int) ≠ l := by omega
      have hcur' : dictLookup kb.layout ((l + 1) + (i : Int), (j : Int), (k : Int)) = some cur := by
        rw [← a2 ((l + 1) + (i : Int), (j : Int), (k : Int)) hne]
        exact hcur
      have harith : l + ((i + 1 : Nat) : Int) = (l + 1) + (i : Int) := by
        push_cast
        ring
      have h1 := h (i + 1) j k v (by simpa using hi) cur (by rw [harith]; exact hcur')
      rwa [harith] at h1
    obtain ⟨kb2, ws2, hrs⟩ := ih kb1 (l + 1) hshift
    refine ⟨kb2, ws1 ++ ws2, ?_⟩
    simp only [restoreLayers]
    rw [hrl]
    dsimp only
    rw [hrs]

theorem restoreLayers_err (ls : List (List (List Int))) :
    ∀ (kb : Keyboard) (l : Int) (i j k : Nat) (layer : List (List Int)) (row : List Int)
      (v cur : Int),
      ls.get? i = some layer → layer.get? j = some row → row.get? k = some v →
      dictLookup kb.layout (l + (i : Int), (j : Int), (k : Int)) = some cur →
      cur ≠ v → canEncodeSetKey (l + (i : Int)) ((j : Int)) ((k : Int)) v = false →
      ∃ e, restoreLayers kb ls l = .error e := by
  induction ls with
  | nil =>
    intro kb l i j k layer row v cur hi
    simp at hi
  | cons layer0 rest ih =>
    intro kb l i j k layer row v cur hi hj hk hcur hne henc
    cases i with
    | zero =>
      have hl0 : layer0 = layer := by simpa using hi
      subst hl0
      have hcur0 : dictLookup kb.layout (l, (0 : Int) + (j : Int), (k : Int)) = some cur := by
        simpa using hcur
      have henc0 : canEncodeSetKey l ((0 : Int) + (j : Int)) ((k : Int)) v = false := by
        simpa using henc
      obtain ⟨e, hrl⟩ := restoreLayer_err l layer0 kb 0 j k row v cur hj hk hcur0 hne henc0
      refine ⟨e, ?_⟩
      simp only [restoreLayers]
      rw [hrl]
    | succ i' =>
      have hi' : rest.get? i' = some layer := by simpa using hi
      have harith : l + ((i' + 1 : Nat) : Int) = (l + 1) + (i' : Int) := by
        push_cast
        ring
      have hcur' : dictLookup kb.layout ((l + 1) + (i' : Int), (j : Int), (k : Int)) = some cur := by
        rw [← harith]
        exact hcur
      have henc' : canEncodeSetKey ((l + 1) + (i' : Int)) ((j : Int)) ((k : Int)) v = false := by
        rw [← harith]
        exact henc
      cases hrl : restoreLayer kb l layer0 0 with
      | error e =>
        refine ⟨e, ?_⟩
        simp only [restoreLayers]
        rw [hrl]
      | ok pair =>
        obtain ⟨kb1, ws1⟩ := pair
        obtain ⟨a1, a2, a3⟩ := restoreLayer_ok_inv l layer0 kb 0 kb1 ws1 hrl
        have hne2 : (l + 1) + (i' : Int) ≠ l := by omega
        have hcur1 : dictLookup kb1.layout ((l + 1) + (i' : Int), (j : Int), (k : Int)) = some cur := by
          rw [a2 ((l + 1) + (i' : Int), (j : Int), (k : Int)) hne2]
          exact hcur'
        obtain ⟨e2, hrs⟩ := ih kb1 (l + 1) i' j k layer row v cur hi' hj hk hcur1 hne henc'
        obtain ⟨ea, eb, ec⟩ := e2
        refine ⟨(ea, eb, ws1 ++ ec), ?_⟩
        simp only [restoreLayers]
        rw [hrl]
        dsimp only
        simp [hrs]
theorem entryAt_decomp {d : SavedLayout} {i j k : Nat} {v : Int}
    (h : entryAt d i j k = some v) :
    ∃ layer row, d.layout.get? i = some layer ∧ layer.get? j = some row ∧
      row.get? k = some v := by
  unfold entryAt at h
  rw [Option.bind_eq_some] at h
  obtain ⟨layer, h1, h2⟩ := h
  rw [Option.bind_eq_some] at h2
  obtain ⟨row, h3, h4⟩ := h2
  exact ⟨layer, row, by rw [List.get?_eq_getElem?]; exact h1,
    by rw [List.get?_eq_getElem?]; exact h3, by rw [List.get?_eq_getElem?]; exact h4⟩

theorem entryAt_eq_bind (d : SavedLayout) (i j k : Nat) :
    entryAt d i j k =
      ((d.layout.get? i).bind (fun layer => (layer.get? j).bind (fun row => row.get? k))) := by
  unfold entryAt
  rw [List.get?_eq_getElem?]
  cases d.layout[i]? with
  | none => rfl
  | some layer =>
    dsimp only [Option.some_bind]
    rw [List.get?_eq_getElem?]
    cases layer[j]? with
    | none => rfl
    | some row =>
      dsimp only [Option.some_bind]
      rw [List.get?_eq_getElem?]

theorem restore_layout_exists (kb : Keyboard) (d : SavedLayout)
    (hsafe : ∀ (i j k : Nat) (v : Int), entryAt d i j k = some v →
      ∀ cur, dictLookup kb.layout ((i : Int), (j : Int), (k : Int)) = some cur →
        v = cur ∨ canEncodeSetKey ((i : Int)) ((j : Int)) ((k : Int)) v = true) :
    ∃ kb' ws, restore_layout kb d = .ok (kb', ws) := by
  unfold restore_layout
  refine restoreLayers_exists d.layout kb 0 ?_
  intro i j k v hv cur hcur
  have hv' : entryAt d i j k = some v := by
    rw [entryAt_eq_bind]
    exact hv
  have h1 := hsafe i j k v hv' cur (by simpa using hcur)
  simpa using h1

theorem restore_layout_ok_inv (kb : Keyboard) (d : SavedLayout) (kb' : Keyboard)
    (ws : List WriteReq) (h : restore_layout kb d = .ok (kb', ws)) :
    (∀ t, (dictLookup kb'.layout t).isSome = (dictLookup kb.layout t).isSome) ∧
    (∀ w ∈ ws, (dictLookup kb.layout (w.l, w.r, w.c)).isSome = true) := by
  unfold restore_layout at h
  exact restoreLayers_ok_inv d.layout kb 0 kb' ws h

theorem restore_layout_err (kb : Keyboard) (d : SavedLayout) (i j k : Nat) (v cur : Int)
    (hentry : entryAt d i j k = some v)
    (hcur : dictLookup kb.layout ((i : Int), (j : Int), (k : Int)) = some cur)
    (hne : cur ≠ v) (henc : canEncodeSetKey ((i : Int)) ((j : Int)) ((k : Int)) v = false) :
    ∃ e, restore_layout kb d = .error e := by
  obtain ⟨layer, row, h1, h2, h3⟩ := entryAt_decomp hentry
  unfold restore_layout
  exact restoreLayers_err d.layout kb 0 i j k layer row v cur h1 h2 h3
    (by simpa using hcur) hne (by simpa using henc)

/-! ### The claims -/

/-- Claim C1 (amended): when a live-path discovery (`reload` with no sideloaded
document) fails at decompression or parsing of the accumulated payload, the
exception escapes `reload` and the session is left with LayoutGeometry
(`rows`, `cols`) unchanged, CoordinateSet and Keymap reset to empty (they are
cleared by `reload` before discovery starts, so they do not keep their
pre-call values), and DeviceIdentity overwritten from the identity exchange.
No partially parsed layout data is committed. -/
theorem spec_C1 (send : List Nat → List Nat) (dp : List Nat → Option Payload) (M : Nat)
    (kb : Keyboard) (vp kid : Int) (sz : Nat)
    (h1 : unpackIQ (send [254, 0]) = some (vp, kid))
    (h2 : unpackI (send [254, 1]) = some sz)
    (h3 : dp (fetchChunks send M sz 0).1 = none) :
    reload send dp M kb none = .error (.decodeError,
      { kb with rowcol := [], layout := [], vial_protocol := vp, keyboard_id := kid }) := by
  unfold reload reload_layout
  dsimp only
  rw [h1]
  dsimp only
  rw [h2]
  dsimp only
  rw [h3]

/-- Claim C1, counterexample to the claim as stated: on a session whose
CoordinateSet is nonempty, a live discovery that fails at parsing leaves the
CoordinateSet empty - not "unchanged from its value before the call". -/
theorem spec_C1_cex :
    reload c1Send (fun _ => none) 32 c1Kb none = .error (.decodeError, c1KbErr) ∧
    ¬ c1KbErr.rowcol = c1Kb.rowcol := by
  constructor
  · rfl
  · decide

/-- Claim C1, witness: the amended theorem applied at the concrete failing
discovery. -/
theorem spec_C1_witness :
    (unpackIQ (c1Send [254, 0]) = some (0, 0) ∧ unpackI (c1Send [254, 1]) = some 1 ∧
      (fun _ : List Nat => (none : Option Payload)) (fetchChunks c1Send 32 1 0).1 = none) ∧
    reload c1Send (fun _ => none) 32 c1Kb none = .error (.decodeError, c1KbErr) :=
  ⟨⟨rfl, rfl, rfl⟩, spec_C1 c1Send (fun _ => none) 32 c1Kb 0 0 1 rfl rfl rfl⟩

/-- Claim C2: for a session whose Keymap holds an entry for every
`(layer, row, col)` with `layer < layerCount`, `row < rows`, `col < cols`,
`restore_layout (save_layout kb)` returns with the Keymap (indeed the whole
session) exactly unchanged and an empty list of write requests. -/
theorem spec_C2 (kb : Keyboard)
    (hfull : ∀ (l r c : Nat), l < kb.layers.toNat → r < kb.rows.toNat → c < kb.cols.toNat →
      (dictLookup kb.layout ((l : Int), (r : Int), (c : Int))).isSome = true) :
    restore_layout kb (save_layout kb) = .ok (kb, []) :=
  restore_layout_save kb

/-- Claim C2, witness: the round trip on a concrete fully-populated session. -/
theorem spec_C2_witness :
    (∀ (l r c : Nat), l < c2Kb.layers.toNat → r < c2Kb.rows.toNat → c < c2Kb.cols.toNat →
      (dictLookup c2Kb.layout ((l : Int), (r : Int), (c : Int))).isSome = true) ∧
    restore_layout c2Kb (save_layout c2Kb) = .ok (c2Kb, []) := by
  have hfull : ∀ (l r c : Nat), l < c2Kb.layers.toNat → r < c2Kb.rows.toNat →
      c < c2Kb.cols.toNat →
      (dictLookup c2Kb.layout ((l : Int), (r : Int), (c : Int))).isSome = true := by
    intro l r c hl hr hc
    have hl' : l < 1 := hl
    have hr' : r < 1 := hr
    have hc' : c < 1 := hc
    have hl0 : l = 0 := by omega
    have hr0 : r = 0 := by omega
    have hc0 : c = 0 := by omega
    subst hl0
    subst hr0
    subst hc0
    rfl
  exact ⟨hfull, spec_C2 c2Kb hfull⟩

/-- Claim C3: in the chunked payload fetch, for declared size `S` and message
length `M > 0`, when every transport response has exactly `M` bytes the
accumulated buffer has exactly `S` bytes, the requested block indices are
`0, 1, 2, ...` in order, and the number of chunk requests is `⌈S / M⌉`
(computed as `(S + M - 1) / M`; in particular zero requests for `S = 0` and
never one extra chunk). -/
theorem spec_C3 (send : List Nat → List Nat) (M S : Nat) (hM : 0 < M)
    (hlen : ∀ req, (send req).length = M) :
    (fetchChunks send M S 0).1.length = S ∧
    (fetchChunks send M S 0).2 = List.range ((S + M - 1) / M) ∧
    (fetchChunks send M S 0).2.length = (S + M - 1) / M := by
  obtain ⟨hlen1, hblocks⟩ := fetchChunks_spec send M S hM hlen
  exact ⟨hlen1, hblocks, by rw [hblocks, List.length_range]⟩

/-- Claim C3, witness: `S = 6`, `M = 4` (a truncated final chunk). -/
theorem spec_C3_witness :
    (fetchChunks (fun _ => [7, 7, 7, 7]) 4 6 0).1.length = 6 ∧
    (fetchChunks (fun _ => [7, 7, 7, 7]) 4 6 0).2 = List.range ((6 + 4 - 1) / 4) ∧
    (fetchChunks (fun _ => [7, 7, 7, 7]) 4 6 0).2.length = (6 + 4 - 1) / 4 :=
  spec_C3 (fun _ => [7, 7, 7, 7]) 4 6 (by decide) (fun _ => rfl)

/-- Claim C4 (amended): a discovery via the sideload path never modifies
DeviceIdentity - both outcomes of `reload` carry the `vial_protocol` and
`keyboard_id` the session had before the call; in particular, on a session
where they hold the unset sentinel `-1`/`-1` (e.g. a freshly constructed
one), they are still `-1`/`-1` afterwards. -/
theorem spec_C4 (send : List Nat → List Nat) (dp : List Nat → Option Payload) (M : Nat)
    (kb : Keyboard) (p : Payload) :
    idPres kb (reload send dp M kb (some p)) ∧
    (kb.vial_protocol = -1 → kb.keyboard_id = -1 →
      ∀ kb', reload send dp M kb (some p) = .ok kb' →
        kb'.vial_protocol = -1 ∧ kb'.keyboard_id = -1) := by
  have h := idPres_reload_sideload send dp M kb p
  refine ⟨h, ?_⟩
  intro hvp hkid kb' hok
  have h2 := h.1 kb' hok
  exact ⟨h2.1.trans hvp, h2.2.trans hkid⟩

/-- Claim C4, counterexample to the claim as stated: a sideloaded discovery on
a session whose DeviceIdentity was set by an earlier live discovery succeeds
and leaves the identity at `(5, 7)`, not at the unset sentinel. -/
theorem spec_C4_cex :
    reload c4Send (fun _ => none) 32 c4Kb5 (some c4Payload) = .ok (c4Res 5 7) ∧
    ¬ ((c4Res 5 7).vial_protocol = -1 ∧ (c4Res 5 7).keyboard_id = -1) := by
  constructor
  · rfl
  · decide

/-- Claim C4, witness: on a freshly constructed session the sideloaded
discovery leaves DeviceIdentity at `-1`/`-1`. -/
theorem spec_C4_witness :
    reload c4Send (fun _ => none) 32 initKeyboard (some c4Payload) = .ok (c4Res (-1) (-1)) ∧
    ((c4Res (-1) (-1)).vial_protocol = -1 ∧ (c4Res (-1) (-1)).keyboard_id = -1) :=
  ⟨rfl, (spec_C4 c4Send (fun _ => none) 32 initKeyboard c4Payload).2 rfl rfl
    (c4Res (-1) (-1)) rfl⟩

/-- Claim C5: `set_key` with the cached keycode issues no transport request
and leaves the session unchanged; starting from a cached value `b ≠ a`,
calling `set_key` with `a` and then with `a` again issues exactly one write
request in total (the first call writes and updates the cache, the second is
a no-op). -/
theorem spec_C5 (kb : Keyboard) (l r c a b : Int)
    (hb : dictLookup kb.layout (l, r, c) = some b) (hne : b ≠ a)
    (hl : 0 ≤ l ∧ l < 256) (hr : 0 ≤ r ∧ r < 256) (hc : 0 ≤ c ∧ c < 256)
    (ha : 0 ≤ a ∧ a < 65536) :
    set_key kb l r c b = .ok (kb, []) ∧
    set_key kb l r c a =
      .ok ({ kb with layout := dictInsert kb.layout (l, r, c) a }, [WriteReq.mk l r c a]) ∧
    set_key { kb with layout := dictInsert kb.layout (l, r, c) a } l r c a =
      .ok ({ kb with layout := dictInsert kb.layout (l, r, c) a }, []) := by
  have henc : canEncodeSetKey l r c a = true := by
    simp only [canEncodeSetKey, Bool.and_eq_true, decide_eq_true_eq]
    omega
  refine ⟨set_key_noop hb, ?_, ?_⟩
  · rw [set_key_eq_some hb, if_pos hne, if_pos henc]
  · exact set_key_noop (dictLookup_dictInsert_self kb.layout (l, r, c) a)

/-- Claim C5, witness: cached 3 at (0,0,0); `set_key` with 3 is a no-op, with
4 writes once, with 4 again is a no-op. -/
theorem spec_C5_witness :
    dictLookup c5Kb.layout (0, 0, 0) = some 3 ∧
    set_key c5Kb 0 0 0 3 = .ok (c5Kb, []) ∧
    set_key c5Kb 0 0 0 4 = .ok (c5Kb2, [WriteReq.mk 0 0 0 4]) ∧
    set_key c5Kb2 0 0 0 4 = .ok (c5Kb2, []) := by
  have h := spec_C5 c5Kb 0 0 0 4 3 rfl (by decide) (by decide) (by decide) (by decide)
    (by decide)
  exact ⟨rfl, h.1, h.2.1, h.2.2⟩

/-- Claim C7: `set_key` on a triple absent from the Keymap cache raises the
lookup failure (`KeyError`) to the caller, with no transport request issued
(empty write list) and the session unchanged (the error carries the input
state). -/
theorem spec_C7 (kb : Keyboard) (l r c code : Int)
    (h : dictLookup kb.layout (l, r, c) = none) :
    set_key kb l r c code = .error (.keyError, kb, []) := by
  unfold set_key
  rw [h]

/-- Claim C7, witness: `set_key` on a fresh session with an empty cache. -/
theorem spec_C7_witness :
    dictLookup initKeyboard.layout (1, 2, 3) = none ∧
    set_key initKeyboard 1 2 3 9 = .error (.keyError, initKeyboard, []) :=
  ⟨rfl, spec_C7 initKeyboard 1 2 3 9 rfl⟩

/-- Claim C6: `restore_layout` applied to a save document containing an index
triple `(l, r, c)` that is not a key of the current Keymap (here with an
arbitrary value `v`, and under the hypothesis that every in-Keymap cell of the
document either matches the cached value or is byte/16-bit encodable, so no
OTHER cell can raise) does not raise, issues no write request addressed to
that triple, and leaves the Keymap at that triple unchanged (still absent). -/
theorem spec_C6 (kb : Keyboard) (d : SavedLayout) (l r c : Nat) (v : Int)
    (hin : entryAt d l r c = some v)
    (habs : dictLookup kb.layout ((l : Int), (r : Int), (c : Int)) = none)
    (hsafe : ∀ (i j k : Nat) (v' : Int), entryAt d i j k = some v' →
      ∀ cur, dictLookup kb.layout ((i : Int), (j : Int), (k : Int)) = some cur →
        v' = cur ∨ canEncodeSetKey ((i : Int)) ((j : Int)) ((k : Int)) v' = true) :
    ∃ kb' ws, restore_layout kb d = .ok (kb', ws) ∧
      (∀ w ∈ ws, ¬ ((w.l, w.r, w.c) = (((l : Int)), ((r : Int)), ((c : Int))))) ∧
      dictLookup kb'.layout ((l : Int), (r : Int), (c : Int)) = none := by
  obtain ⟨kb', ws, hok⟩ := restore_layout_exists kb d hsafe
  obtain ⟨inv1, inv2⟩ := restore_layout_ok_inv kb d kb' ws hok
  refine ⟨kb', ws, hok, ?_, ?_⟩
  · intro w hw heq
    have h2 := inv2 w hw
    rw [heq, habs] at h2
    simp at h2
  · have h1 := inv1 ((l : Int), (r : Int), (c : Int))
    rw [habs] at h1
    cases hx : dictLookup kb'.layout ((l : Int), (r : Int), (c : Int)) with
    | none => rfl
    | some z =>
      rw [hx] at h1
      simp at h1

/-- Claim C6, witness: the document `[[[20, 99]]]` against a Keymap holding
only (0,0,0): the out-of-Keymap triple (0,0,1) with hostile value 99 is
silently skipped while the in-Keymap cell is restored. -/
theorem spec_C6_witness :
    (entryAt c6Doc 0 0 1 = some 99 ∧
      dictLookup c6Kb.layout (((0 : Nat) : Int), ((0 : Nat) : Int), ((1 : Nat) : Int)) = none) ∧
    (∃ kb' ws, restore_layout c6Kb c6Doc = .ok (kb', ws) ∧
      (∀ w ∈ ws,
        ¬ ((w.l, w.r, w.c) = (((0 : Nat) : Int), ((0 : Nat) : Int), ((1 : Nat) : Int)))) ∧
      dictLookup kb'.layout (((0 : Nat) : Int), ((0 : Nat) : Int), ((1 : Nat) : Int)) = none) := by
  have hsafe : ∀ (i j k : Nat) (v' : Int), entryAt c6Doc i j k = some v' →
      ∀ cur, dictLookup c6Kb.layout ((i : Int), (j : Int), (k : Int)) = some cur →
        v' = cur ∨ canEncodeSetKey ((i : Int)) ((j : Int)) ((k : Int)) v' = true := by
    intro i j k v' hv' cur hcur
    cases i with
    | succ i' => exact Option.noConfusion hv'
    | zero =>
      cases j with
      | succ j' => exact Option.noConfusion hv'
      | zero =>
        cases k with
        | zero =>
          injection hv' with hv0
          injection hcur with hc0
          subst hv0
          subst hc0
          right
          decide
        | succ k' =>
          cases k' with
          | zero => exact Option.noConfusion hcur
          | succ k'' => exact Option.noConfusion hv'
  exact ⟨⟨rfl, rfl⟩, spec_C6 c6Kb c6Doc 0 0 1 99 rfl rfl hsafe⟩

/-- Claim C8: a key record whose primary label is the text "3,7" yields the
coordinate (3, 7); an empty or separator-less primary label yields no
coordinate; `processKeys` (the discovery post-processing loop) succeeds on any
benign key list and produces exactly the parsed coordinates, inserted in
deserializer output order (equal to the filtered label order whenever the
starting CoordinateSet is empty and the coordinates are distinct). -/
theorem spec_C8 (kb : Keyboard) (ks : List KeyRec)
    (hok : ∀ k ∈ ks, labelOk (k.labels.getD 0 []) = true) :
    labelCoord ['3', ',', '7'] = .ok (some (3, 7)) ∧
    labelCoord ([] : List Char) = .ok none ∧
    (∀ s : List Char, s.contains ',' = false → labelCoord s = .ok none) ∧
    ∃ kb', processKeys kb [] ks = .ok kb' ∧
      kb'.rowcol = odInsertAll kb.rowcol (coordsOf ks) ∧
      (kb.rowcol = [] → (coordsOf ks).Nodup → kb'.rowcol = coordsOf ks) := by
  refine ⟨rfl, rfl, ?_, ?_⟩
  · intro s hs
    unfold labelCoord
    rw [if_neg (by
      intro hcond
      rw [hs] at hcond
      exact Bool.noConfusion hcond.2)]
  · obtain ⟨kb', h1, h2, h3⟩ := processKeys_ok ks kb [] hok
    refine ⟨kb', h1, h2, ?_⟩
    intro hempty hnodup
    rw [h2, hempty]
    have h4 := odInsertAll_eq_append (coordsOf ks) [] (by simp) hnodup
    simpa using h4

/-- Claim C8, witness: three records labelled "3,7", "" and "xy" produce the
CoordinateSet [(3, 7)]. -/
theorem spec_C8_witness :
    (c8Keys.all (fun k => labelOk (k.labels.getD 0 []))) = true ∧
    (exOk (processKeys initKeyboard [] c8Keys)).map (fun kb' => kb'.rowcol) =
      some [((3 : Int), (7 : Int))] ∧
    (∃ kb', processKeys initKeyboard [] c8Keys = .ok kb' ∧
      kb'.rowcol = odInsertAll initKeyboard.rowcol (coordsOf c8Keys) ∧
      (initKeyboard.rowcol = [] → (coordsOf c8Keys).Nodup →
        kb'.rowcol = coordsOf c8Keys)) :=
  ⟨rfl, rfl, (spec_C8 initKeyboard c8Keys (by decide)).2.2.2⟩

/-- Claim C9: if the Keymap holds a 16-bit-unsigned cached value at
`(l, r, c)` and the save document holds the sentinel -1 there, restore does
not skip the entry: `set_key` is invoked with -1, the `>BBBBH` write encoding
rejects it (`struct.error`), and `restore_layout` fails rather than
completing. -/
theorem spec_C9 (kb : Keyboard) (d : SavedLayout) (l r c : Nat) (v0 : Int)
    (hin : entryAt d l r c = some (-1))
    (hcur : dictLookup kb.layout ((l : Int), (r : Int), (c : Int)) = some v0)
    (hv : 0 ≤ v0 ∧ v0 < 65536) :
    set_key kb ((l : Int)) ((r : Int)) ((c : Int)) (-1) = .error (.structError, kb, []) ∧
    exOk (restore_layout kb d) = none := by
  have hne : v0 ≠ -1 := by omega
  have hdec : decide ((0 : Int) ≤ -1 ∧ (-1 : Int) < 65536) = false := by decide
  have henc : canEncodeSetKey ((l : Int)) ((r : Int)) ((c : Int)) (-1) = false := by
    simp [canEncodeSetKey, hdec]
  refine ⟨set_key_write_err hcur hne henc, ?_⟩
  obtain ⟨e, herr⟩ := restore_layout_err kb d l r c (-1) v0 hin hcur hne henc
  rw [herr]
  rfl

/-- Claim C9, witness: a document holding -1 at the (0,0,0) cell of a Keymap
caching 10 there makes both `set_key` and the whole restore fail. -/
theorem spec_C9_witness :
    (entryAt c9Doc 0 0 0 = some (-1) ∧
      dictLookup c9Kb.layout (((0 : Nat) : Int), ((0 : Nat) : Int), ((0 : Nat) : Int)) =
        some 10) ∧
    set_key c9Kb (((0 : Nat) : Int)) (((0 : Nat) : Int)) (((0 : Nat) : Int)) (-1) =
      .error (.structError, c9Kb, []) ∧
    exOk (restore_layout c9Kb c9Doc) = none :=
  ⟨⟨rfl, rfl⟩, spec_C9 c9Kb c9Doc 0 0 0 10 rfl rfl (by decide)⟩

/-- Claim C10: `save_layout` enumerates only triples with
`layer < layerCount`, `row < rows`, `col < cols`: any address at or beyond
those bounds has no cell in the saved document, and `restore_layout` of the
saved document performs no write at all, so such an out-of-bounds Keymap
entry is never re-applied by the round trip. -/
theorem spec_C10 (kb : Keyboard) :
    (∀ (i j k : Nat), (kb.layers ≤ (i : Int) ∨ kb.rows ≤ (j : Int) ∨ kb.cols ≤ (k : Int)) →
      entryAt (save_layout kb) i j k = none) ∧
    restore_layout kb (save_layout kb) = .ok (kb, []) := by
  constructor
  · intro i j k hb
    rw [entryAt_save, if_neg (by
      intro hcon
      rcases hb with h | h | h <;> omega)]
  · exact restore_layout_save kb

/-- Claim C10, witness: on a 1x1x1 session, layer index 3 is absent from the
saved document and the round trip is a write-free no-op. -/
theorem spec_C10_witness :
    entryAt (save_layout c10Kb) 3 0 0 = none ∧
    restore_layout c10Kb (save_layout c10Kb) = .ok (c10Kb, []) :=
  ⟨(spec_C10 c10Kb).1 3 0 0 (Or.inl (by decide)), (spec_C10 c10Kb).2⟩
